import Mathlib

/-!
Verification model of the git object-store / packfile codec / smart-HTTP
subsystem of `git.c`.

Conventions of the shallow embedding:

* A byte buffer is a `List Nat`; every byte read from a buffer is taken
  modulo 256 (C reads through `unsigned char`).
* The filesystem is modelled by write events `(path, content)`; a path is
  itself a byte list.  `fopen(path,"wb")+fwrite` becomes the event
  `(path, content)`.
* The SHA1 primitive and the zlib deflate/inflate primitives are external
  collaborators (out of scope per the specification); they are passed in as
  function parameters `H : Bytes → Bytes`,
  `defl : Bytes → Bytes` and `infl : Bytes → Option (Bytes × Nat)`
  (inflate returns the decompressed bytes and the number of input bytes the
  zlib stream consumed).  `CodecOK` below states the interface contract a
  deflate/inflate pair satisfies; `deflateC`/`inflateC`/`hashC` are concrete
  conforming instances used to evaluate the model on closed inputs.
* The uninitialized 20-byte `sha1` stack buffer that `unpack_packfile`
  passes to `write_git_object` (git.c lines 546-547; `write_git_object`
  only reads its `sha1` argument, it never computes a digest) is modelled
  by a parameter `junk : Nat → Bytes` giving the arbitrary contents of that
  buffer at each loop iteration.
-/

abbrev Bytes := List Nat

/-- ASCII bytes of a string literal (helper for path/protocol constants). -/
def strBytes (s : String) : Bytes := s.data.map (fun ch => ch.toNat)

/-- One lower-case hex digit, as `sprintf "%x"` produces. -/
def hexdig (n : Nat) : Nat := if n < 10 then 48 + n else 87 + n

/-- Two hex digits of one byte, as `sprintf "%02x"` of an `unsigned char`. -/
def byteHex (b : Nat) : Bytes := [hexdig (b % 256 / 16), hexdig (b % 16)]

/-- `sha1_to_hex` (git.c:21-24): 20 bytes to 40 lower-case hex characters. -/
def sha1_to_hex (sha1 : Bytes) : Bytes := sha1.flatMap byteHex

/-- Decimal ASCII digits of `n` (`sprintf "%zu"` / `"%d"`), fueled. -/
def decDigits : Nat → Nat → Bytes
  | 0, n => [48 + n % 10]
  | fuel+1, n => if n < 10 then [48 + n] else decDigits fuel (n / 10) ++ [48 + n % 10]

def decimal (n : Nat) : Bytes := decDigits n n

/-- Octal ASCII digits of `n` (`sprintf "%o"`), fueled. -/
def octDigits : Nat → Nat → Bytes
  | 0, n => [48 + n % 8]
  | fuel+1, n => if n < 8 then [48 + n] else octDigits fuel (n / 8) ++ [48 + n % 8]

def octal (n : Nat) : Bytes := octDigits n n

-- Path and keyword constants (ASCII).
def dotGitObjectsB : Bytes := strBytes (".git/objects/")
def refsHeadsWireB : Bytes := strBytes ("refs/heads/")
def dotGitRefsHeadsB : Bytes := strBytes (".git/refs/heads/")
def headPathB : Bytes := strBytes (".git/HEAD")
def refColonB : Bytes := strBytes ("ref: refs/heads/")
def recvPackB : Bytes := strBytes ("received.pack")
def commitB : Bytes := strBytes ("commit")
def treeB : Bytes := strBytes ("tree")
def blobB : Bytes := strBytes ("blob")
def tagB : Bytes := strBytes ("tag")
def packMagicB : Bytes := strBytes ("PACK")

/-- Canonical git object encoding `"<kind> <byte-length>\0<content>"`. -/
def canonicalObj (kind content : Bytes) : Bytes :=
  kind ++ [32] ++ decimal content.length ++ [0] ++ content

/-- Loose-object path `".git/objects/%.2s/%.38s"` built from a 40-char hex
name (git.c:30-31 and git.c:363). -/
def pathOfHex (hex : Bytes) : Bytes :=
  dotGitObjectsB ++ hex.take 2 ++ [47] ++ (hex.drop 2).take 38

/-- The loose-object path derived from a 20-byte digest value. -/
def objPath (sha1 : Bytes) : Bytes := pathOfHex (sha1_to_hex sha1)

/-- `write_git_object` (git.c:27-43).  It derives the path from the `sha1`
ARGUMENT (it never hashes `object` itself) and writes `object` to that path
verbatim — note: no deflate compression is applied before the `fwrite`.
Modelled as the single write event it performs (the `mkdir` calls create
directories only and are omitted). -/
def write_git_object (object : Bytes) (sha1 : Bytes) : Bytes × Bytes :=
  (objPath sha1, object)

/-- `create_blob` (git.c:105-127) for a file whose bytes are `content`:
builds `"blob <size>\0" ++ content`, hashes it with SHA1 (`H`), and stores
it via `write_git_object`.  Returns (write event, sha1). -/
def create_blob (H : Bytes → Bytes) (content : Bytes) : (Bytes × Bytes) × Bytes :=
  let object := canonicalObj blobB content
  let sha1 := H object
  (write_git_object object sha1, sha1)

/-- `git_obj_type` (git.c:285-291). -/
def git_obj_type (objtype : Bytes) : Nat :=
  if objtype = commitB then 1
  else if objtype = treeB then 2
  else if objtype = blobB then 3
  else if objtype = tagB then 4
  else 0

/-- Continuation bytes of the pack object header varint: the loop of
`write_pack_obj_hdr` (git.c:276-281) over `size >> 4`, fueled (`m / 128`
strictly decreases, so fuel `m` suffices). -/
def packHdrRestAux : Nat → Nat → Bytes
  | 0, _ => []
  | fuel+1, m =>
    if m = 0 then []
    else (if m / 128 = 0 then [m % 128] else [m % 128 + 128]) ++ packHdrRestAux fuel (m / 128)

def packHdrRest (m : Nat) : Bytes := packHdrRestAux m m

/-- `write_pack_obj_hdr` (git.c:270-283).  First byte
`(type << 4) | (size & 0x0F)` with the continue bit when `size >> 4 ≠ 0`;
then base-128 little-endian continuation bytes.  All call sites pass
`type ≤ 4`, for which this is exactly the C unsigned-char value. -/
def write_pack_obj_hdr (type size : Nat) : Bytes :=
  (type * 16 + size % 16 + (if size / 16 = 0 then 0 else 128)) :: packHdrRest (size / 16)

/-- `read_loose_object` (git.c:294-325): inflate the loose file (into a
fixed 65536-byte buffer — larger output makes `inflate` fail short of
`Z_STREAM_END` and the function return 0), then split the canonical
encoding at the first space and the first NUL. -/
def read_loose_object (infl : Bytes → Option (Bytes × Nat)) (file : Bytes) :
    Option (Bytes × Bytes) :=
  match infl file with
  | none => none
  | some (data, _) =>
    if 65536 < data.length then none
    else
      match data.findIdx? (fun c => c = 32), data.findIdx? (fun c => c = 0) with
      | some sp, some zp => some (data.take sp, data.drop (zp + 1))
      | _, _ => none

/-- Inner collection loop of `create_packfile` (git.c:343-348): files of one
2-character subdirectory.  `cnt` is the number of sha1 names collected so
far; after storing a name the C code does `sha1cnt++` and breaks out of the
inner loop when `sha1cnt > 1023` — a hard 1024-name capacity. -/
def collectInner (sub : Bytes) : List Bytes → Nat → List Bytes
  | [], _ => []
  | f :: fs, cnt =>
    if f.length ≠ 38 then collectInner sub fs cnt
    else if cnt + 1 > 1023 then [sub ++ f]
    else (sub ++ f) :: collectInner sub fs (cnt + 1)

/-- Outer collection loop of `create_packfile` (git.c:337-351) over the
`.git/objects` subdirectories (those with 2-character names). -/
def collectOuter : List (Bytes × List Bytes) → Nat → List Bytes
  | [], _ => []
  | (sub, files) :: ds, cnt =>
    if sub.length ≠ 2 then collectOuter ds cnt
    else
      let new := collectInner sub files cnt
      new ++ collectOuter ds (cnt + new.length)

/-- The sha1 names `create_packfile` collects from a directory listing
(`dirs` pairs each subdirectory name with its file names, in `readdir`
order). -/
def collectSha1s (dirs : List (Bytes × List Bytes)) : List Bytes :=
  collectOuter dirs 0

/-- Association-list filesystem read (`fopen(path,"rb")`). -/
def getFile (fs : List (Bytes × Bytes)) (p : Bytes) : Option Bytes :=
  (fs.find? (fun e => e.1 == p)).map (fun e => e.2)

/-- Per-object loop of `create_packfile` (git.c:361-389): for each collected
sha1 name, read the loose object (silently `continue` on failure), then
emit the pack header and the deflated data (the deflate output is staged in
a fixed 65536-byte buffer, so only its first 65536 bytes are appended).
Returns (entry bytes, object count). -/
def packEntriesGo (infl : Bytes → Option (Bytes × Nat)) (defl : Bytes → Bytes)
    (fs : List (Bytes × Bytes)) : List Bytes → Bytes × Nat
  | [] => ([], 0)
  | name :: rest =>
    match getFile fs (pathOfHex name) with
    | none => packEntriesGo infl defl fs rest
    | some file =>
      match read_loose_object infl file with
      | none => packEntriesGo infl defl fs rest
      | some (ty, data) =>
        let hdr := write_pack_obj_hdr (git_obj_type ty) data.length
        let tl := packEntriesGo infl defl fs rest
        (hdr ++ (defl data).take 65536 ++ tl.1, tl.2 + 1)

/-- Big-endian 4-byte encoding (git.c:391-394). -/
def be32 (n : Nat) : Bytes :=
  [n / 2 ^ 24 % 256, n / 2 ^ 16 % 256, n / 2 ^ 8 % 256, n % 256]

/-- `create_packfile` (git.c:328-403): `"PACK"`, version 2, the (patched-in)
object count, the entries, then the SHA1 of everything written so far. -/
def create_packfile (H : Bytes → Bytes) (infl : Bytes → Option (Bytes × Nat))
    (defl : Bytes → Bytes) (fs : List (Bytes × Bytes))
    (dirs : List (Bytes × List Bytes)) : Bytes :=
  let names := collectSha1s dirs
  let entries := packEntriesGo infl defl fs names
  let body := packMagicB ++ [0, 0, 0, 2] ++ be32 entries.2 ++ entries.1
  body ++ H body

/-- Modelled from the spec: the `unpacked_obj` record of the Resolution
Table is referenced by `unpack_packfile` (git.c:413-420, 448, 550-558) but
its definition is only a "see above, already defined" comment in the
source; its fields are reconstructed from the uses at git.c:550-555
(`type`, `sha1`, `data`/`size`, `pack_offset`). -/
structure UnpackedObj where
  type : Bytes
  sha1 : Bytes
  data : Bytes
  packOffset : Nat
deriving DecidableEq

/-- Modelled from the spec: `find_obj_by_offset` (declared only as a
comment at git.c:416-417) — Resolution Table lookup of an entry already
resolved in this pass, keyed by its pack offset (spec 4.3). -/
def find_obj_by_offset (objs : List UnpackedObj) (off : Nat) : Option UnpackedObj :=
  objs.find? (fun o => o.packOffset == off)

/-- Modelled from the spec: `find_obj_by_sha1` (declared only as a comment
at git.c:419-420) — Resolution Table lookup keyed by the recorded 20-byte
digest (spec 4.3). -/
def find_obj_by_sha1 (objs : List UnpackedObj) (sha : Bytes) : Option UnpackedObj :=
  objs.find? (fun o => o.sha1 == sha)

/-- Modelled from the spec: `get_varint` is only a prototype (git.c:410);
the spec glossary defines the varint as little-endian, base-128,
continuation-bit-terminated.  Returns (value, remaining bytes). -/
def getVarintGo : Bytes → Nat → Nat → Option (Nat × Bytes)
  | [], _, _ => none
  | c :: r, shift, acc =>
    if c % 256 < 128 then some (acc + c % 256 * 2 ^ shift, r)
    else getVarintGo r (shift + 7) (acc + (c % 256 - 128) * 2 ^ shift)

def get_varint (bs : Bytes) : Option (Nat × Bytes) := getVarintGo bs 0 0

/-- Error taxonomy of the Delta Applier (spec section 7). -/
inductive DeltaErr where
  | baseSizeMismatch
  | outOfBounds
  | invalidOpcode
  | truncated
  | targetSizeMismatch
deriving DecidableEq

/-- Modelled from the spec (4.4): read the little-endian bytes of a copy
opcode selected by the low `count` flag bits starting at flag position
`pos`; a byte present for flag bit `i` contributes `byte << (8*i)`. -/
def readParts : Nat → Nat → Nat → Bytes → Option (Nat × Bytes)
  | 0, _, _, bs => some (0, bs)
  | k+1, flags, pos, bs =>
    if flags / 2 ^ pos % 2 = 1 then
      match bs with
      | [] => none
      | c :: r =>
        match readParts k flags (pos + 1) r with
        | none => none
        | some (v, rest) => some (v + c % 256 * 2 ^ (8 * pos), rest)
    else readParts k flags (pos + 1) bs

/-- Modelled from the spec (4.4): the opcode loop of the Delta Applier.
High-bit opcodes copy `len` bytes from `base[off..off+len)` (4 optional
offset bytes selected by flag bits 0-3, 3 optional length bytes selected by
flag bits 4-6, omitted length defaulting to the fixed maximum chunk size
65536); low nonzero opcodes insert that many literal bytes; opcode 0 is
invalid.  Fueled by the remaining byte count (each step consumes ≥ 1). -/
def runOps : Nat → Bytes → Bytes → Bytes → Except DeltaErr Bytes
  | _, _, [], acc => .ok acc
  | 0, _, _ :: _, _ => .error .truncated
  | fuel+1, base, c :: r, acc =>
    let c := c % 256
    if c = 0 then .error .invalidOpcode
    else if c < 128 then
      if r.length < c then .error .truncated
      else runOps fuel base (r.drop c) (acc ++ r.take c)
    else
      match readParts 4 (c - 128) 0 r with
      | none => .error .truncated
      | some (off, r1) =>
        match readParts 3 ((c - 128) / 16) 0 r1 with
        | none => .error .truncated
        | some (len0, r2) =>
          let len := if len0 = 0 then 65536 else len0
          if off + len ≤ base.length then runOps fuel base r2 (acc ++ (base.drop off).take len)
          else .error .outOfBounds

/-- Modelled from the spec: `apply_delta` is called at git.c:539 but its
definition is only a "see above, already defined" comment (git.c:422-423);
modelled from spec 4.4: parse the two leading varints (declared base and
target sizes), validate the base size, run the opcode stream, and require
the produced length to equal the declared target length
(`TargetSizeMismatch` otherwise). -/
def apply_delta (base delta : Bytes) : Except DeltaErr Bytes :=
  match get_varint delta with
  | none => .error .truncated
  | some (bsize, r1) =>
    if bsize ≠ base.length then .error .baseSizeMismatch
    else
      match get_varint r1 with
      | none => .error .truncated
      | some (tsize, r2) =>
        match runOps r2.length base r2 [] with
        | .error e => .error e
        | .ok res => if res.length = tsize then .ok res else .error .targetSizeMismatch

/-- The type/size varint continuation loop of `unpack_packfile`
(git.c:458-462): keep reading 7-bit groups while the previous byte's high
bit is set. -/
def readSizeLoop : Bytes → Nat → Nat → Nat → Nat × Bytes
  | bs, cprev, shift, acc =>
    if cprev % 256 < 128 then (acc, bs)
    else
      match bs with
      | [] => (acc, [])
      | c :: r => readSizeLoop r (c % 256) (shift + 7) (acc + c % 256 % 128 * 2 ^ shift)

/-- The entry head parse of `unpack_packfile` (git.c:454-462): first byte
gives `type = (c >> 4) & 7` and the low 4 size bits, then the varint
continuation.  Returns (type, size, rest). -/
def readEntryHead : Bytes → Nat × Nat × Bytes
  | [] => (0, 0, [])
  | c :: r =>
    let c := c % 256
    let sr := readSizeLoop r c 4 (c % 16)
    (c / 16 % 8, sr.1, sr.2)

/-- The OFS_DELTA offset varint continuation (git.c:486-493): the
accumulator is biased by 1 at each continuation step. -/
def readOfsLoop : Bytes → Nat → Nat → Nat × Bytes
  | bs, cprev, off =>
    if cprev % 256 < 128 then (off, bs)
    else
      match bs with
      | [] => (off, [])
      | c :: r => readOfsLoop r (c % 256) ((off + 1) * 128 + c % 256 % 128)

/-- OFS_DELTA base reference parse (git.c:483-493). -/
def readOfs : Bytes → Nat × Bytes
  | [] => (0, [])
  | c :: r => readOfsLoop r (c % 256) (c % 256 % 128)

/-- Names assigned per type arm at git.c:470-473. -/
def typeNameOf (t : Nat) : Bytes :=
  if t = 1 then commitB else if t = 2 then treeB
  else if t = 3 then blobB else if t = 4 then tagB else []

/-- The per-entry loop of `unpack_packfile` (git.c:450-559), one recursion
step per declared entry.  State: remaining entry count, loop index `i`
(numbering the uninitialized `sha1` buffer contents `junk i` of iteration
`i`), byte position `pos` of the entry start (= C's `obj_offset`), the
remaining bytes `rest` (= `pack + pos`), the Resolution Table `objs`, and
the accumulated store writes `ws`.  Error returns keep the writes performed
so far (the C code has already written those objects).  Return codes as in
C: 0 ok, 3 unsupported type, 4 decompression error (including output
exceeding the `size + 65536` staging buffer), 5 delta base not found,
6 delta application failure. -/
def unpackLoop (infl : Bytes → Option (Bytes × Nat)) (junk : Nat → Bytes) :
    Nat → Nat → Nat → Bytes → List UnpackedObj → List (Bytes × Bytes) →
    Nat × List (Bytes × Bytes)
  | 0, _, _, _, _, ws => (0, ws)
  | n+1, i, pos, rest, objs, ws =>
    let hd := readEntryHead rest
    let t := hd.1
    let size := hd.2.1
    let rest2 := hd.2.2
    if 1 ≤ t ∧ t ≤ 4 then
      match infl rest2 with
      | none => (4, ws)
      | some (out, used) =>
        if size + 65536 < out.length then (4, ws)
        else
          unpackLoop infl junk n (i + 1)
            (pos + (rest.length - rest2.length) + used) (rest2.drop used)
            (objs ++ [⟨(typeNameOf t).take 7, junk i, out, pos⟩])
            (ws ++ [write_git_object out (junk i)])
    else if t = 6 then
      let od := readOfs rest2
      let baseOff := (pos + 2 ^ 64 - od.1 % 2 ^ 64) % 2 ^ 64
      match infl od.2 with
      | none => (4, ws)
      | some (out, used) =>
        if size + 65536 < out.length then (4, ws)
        else
          match find_obj_by_offset objs baseOff with
          | none => (5, ws)
          | some base =>
            match apply_delta base.data out with
            | .error _ => (6, ws)
            | .ok fin =>
              unpackLoop infl junk n (i + 1)
                (pos + (rest.length - od.2.length) + used) (od.2.drop used)
                (objs ++ [⟨base.type.take 7, junk i, fin, pos⟩])
                (ws ++ [write_git_object fin (junk i)])
    else if t = 7 then
      let baseSha := rest2.take 20
      let rest3 := rest2.drop 20
      match infl rest3 with
      | none => (4, ws)
      | some (out, used) =>
        if size + 65536 < out.length then (4, ws)
        else
          match find_obj_by_sha1 objs baseSha with
          | none => (5, ws)
          | some base =>
            match apply_delta base.data out with
            | .error _ => (6, ws)
            | .ok fin =>
              unpackLoop infl junk n (i + 1)
                (pos + (rest.length - rest3.length) + used) (rest3.drop used)
                (objs ++ [⟨base.type.take 7, junk i, fin, pos⟩])
                (ws ++ [write_git_object fin (junk i)])
    else (3, ws)

/-- Big-endian 32-bit read at byte offset `i` (git.c:443-444). -/
def be32At (bs : Bytes) (i : Nat) : Nat :=
  bs.getD i 0 % 256 * 2 ^ 24 + bs.getD (i + 1) 0 % 256 * 2 ^ 16 +
    bs.getD (i + 2) 0 % 256 * 2 ^ 8 + bs.getD (i + 3) 0 % 256

/-- `unpack_packfile` (git.c:429-571) on the pack bytes: check the 4-byte
magic (exit code 2 otherwise), read the declared entry count at offset 8
(the version word at offset 4 is only printed), then run the entry loop
from offset 12.  NOTE: after the loop the C code frees its lists and
returns 0 — the trailing 20-byte digest is never recomputed or compared.
Returns (exit code, store write events). -/
def unpack_packfile (infl : Bytes → Option (Bytes × Nat)) (junk : Nat → Bytes)
    (pack : Bytes) : Nat × List (Bytes × Bytes) :=
  if pack.take 4 = packMagicB then
    unpackLoop infl junk (be32At pack 8) 0 12 (pack.drop 12) [] []
  else (2, [])

/-- `update_refs` (git.c:72-94): writes `.git/refs/heads/<branch>`
containing the 40-hex id and a newline, then `.git/HEAD` containing
`"ref: refs/heads/<branch>\n"` (the `mkdir` calls are omitted). -/
def update_refs (commitSha1 : Bytes) (branch : Bytes) : List (Bytes × Bytes) :=
  [(dotGitRefsHeadsB ++ branch, sha1_to_hex commitSha1 ++ [10]),
   (headPathB, refColonB ++ branch ++ [10])]

/-- A directory tree handed to `create_tree_recursive`: the `readdir`
results after the `.`/`..`/`.git` filtering and `stat` dispatch of
git.c:171-195, in `readdir` order. -/
inductive DirTree where
  | file (name : Bytes) (content : Bytes)
  | dir (name : Bytes) (children : List DirTree)

/-- `create_tree_object` (git.c:130-152): tree content is, per entry,
`"%o %s"` then a NUL then the 20 digest bytes; the object is
`"tree <len>\0" ++ content`.  Returns (write event, sha1).  Modes are
0100644 (= 33188) for files and 040000 (= 16384) for directories
(git.c:185,189). -/
def create_tree_object (H : Bytes → Bytes) (entries : List (Nat × Bytes × Bytes)) :
    (Bytes × Bytes) × Bytes :=
  let content := (entries.map (fun e => octal e.1 ++ [32] ++ e.2.1 ++ [0] ++ e.2.2)).flatten
  let object := canonicalObj treeB content
  let sha1 := H object
  (write_git_object object sha1, sha1)

mutual
/-- One node of `create_tree_recursive`'s walk (git.c:163-207): a regular
file becomes a blob (mode 0100644), a directory recurses and becomes a
tree (mode 040000).  Returns (write events, (mode, name, sha1)). -/
def walkNode (H : Bytes → Bytes) : DirTree → List (Bytes × Bytes) × Nat × Bytes × Bytes
  | .file name content =>
    let b := create_blob H content
    ([b.1], (33188, name, b.2))
  | .dir name children =>
    let sub := walkList H children
    let t := create_tree_object H sub.2
    (sub.1 ++ [t.1], (16384, name, t.2))

/-- The entry list of one directory, in `readdir` order. -/
def walkList (H : Bytes → Bytes) : List DirTree → List (Bytes × Bytes) × List (Nat × Bytes × Bytes)
  | [] => ([], [])
  | t :: ts =>
    let e := walkNode H t
    let es := walkList H ts
    (e.1 ++ es.1, e.2 :: es.2)
end

/-- `create_commit` (git.c:210-241): the commit object content
`"tree <hex>\n[parent <hex>\n]author <a> <time>\ncommitter <a> <time>\n\n<msg>\n"`
wrapped in the canonical `"commit <len>\0"` header.  `timeb` stands for the
formatted `"<seconds> +0000"` string.  Returns (write event, sha1). -/
def create_commit (H : Bytes → Bytes) (treeHex : Bytes) (parent : Option Bytes)
    (author timeb message : Bytes) : (Bytes × Bytes) × Bytes :=
  let content :=
    treeB ++ [32] ++ treeHex ++ [10] ++
    (match parent with
     | none => []
     | some p => strBytes ("parent ") ++ p ++ [10]) ++
    strBytes ("author ") ++ author ++ [32] ++ timeb ++ [10] ++
    strBytes ("committer ") ++ author ++ [32] ++ timeb ++ [10, 10] ++
    message ++ [10]
  let object := canonicalObj commitB content
  let sha1 := H object
  (write_git_object object sha1, sha1)

/-- `git_commit_tree` (git.c:244-263): walk the working directory creating
blob and tree objects, create the root tree and the commit object, then
call `update_refs`.  `parent` is what `read_ref_head` returned (a read-only
lookup).  Returns all write events in program order. -/
def git_commit_tree (H : Bytes → Bytes) (root : List DirTree)
    (author timeb message branch : Bytes) (parent : Option Bytes) :
    List (Bytes × Bytes) :=
  let w := walkList H root
  let t := create_tree_object H w.2
  let c := create_commit H (sha1_to_hex t.2) parent author timeb message
  w.1 ++ [t.1] ++ [c.1] ++ update_refs c.2 branch

/-- `sprintf "%04x"` for the pkt-line length prefix (values here are far
below 65536, where `%04x` is exactly 4 lower-case hex digits). -/
def hex4 (n : Nat) : Bytes :=
  [hexdig (n / 4096 % 16), hexdig (n / 256 % 16), hexdig (n / 16 % 16), hexdig (n % 16)]

/-- `strstr` (first occurrence of `pat` in `s` at index ≥ `i`), fueled. -/
def strstrGo : Nat → Bytes → Bytes → Nat → Option Nat
  | 0, _, _, _ => none
  | f+1, s, pat, i =>
    if i + pat.length ≤ s.length ∧ (s.drop i).take pat.length = pat then some i
    else if i < s.length then strstrGo f s pat (i + 1) else none

/-- Byte class of `sscanf "%40[0-9a-f]"`. -/
def isHexByte (c : Nat) : Bool := (48 ≤ c ∧ c ≤ 57) ∨ (97 ≤ c ∧ c ≤ 102)

/-- The retry loop of `find_branch_sha1_in_info_refs` (git.c:617-629):
find `branch` with `strstr`, walk `p` back to just after the previous
newline (or the buffer start), and if `p + 40 <= line` accept the
`%40[0-9a-f]` hex run at `p` when it is non-empty; otherwise continue the
search after this occurrence. -/
def findBranchGo : Nat → Bytes → Bytes → Nat → Option Bytes
  | 0, _, _, _ => none
  | f+1, s, branch, start =>
    match strstrGo (s.length + 1) s branch start with
    | none => none
    | some i =>
      let back := ((s.take i).reverse.takeWhile (fun c => c ≠ 10)).length
      let p := i - back
      let run := ((s.drop p).takeWhile isHexByte).take 40
      if p + 40 ≤ i ∧ run ≠ [] then some run
      else findBranchGo f s branch (i + branch.length)

/-- `find_branch_sha1_in_info_refs` (git.c:617-629) on the response text
`s`.  Returns the bytes `sscanf` stored into `out_sha1`, if any. -/
def find_branch_sha1_in_info_refs (s branch : Bytes) : Option Bytes :=
  findBranchGo (s.length + 1) s branch 0

/-- The old-ref scan of `git_push` (git.c:654-661): `strstr` for the branch
name; if found at index `i > 40`, take the 40 bytes starting at `i - 41`,
else 40 ASCII zeros. -/
def oldShaOf (resp branch : Bytes) : Bytes :=
  match strstrGo (resp.length + 1) resp branch 0 with
  | some i => if 40 < i then (resp.drop (i - 41)).take 40 else List.replicate 40 48
  | none => List.replicate 40 48

/-- The POST body `git_push` assembles (git.c:663-680).  NOTE on
git.c:665: the `snprintf` format string contains an embedded `\x00` before
`"report-status side-band-64k agent=git/2.0\n"`; a C string literal ends at
that NUL, so the produced `update_line` is exactly
`"<old> <new> refs/heads/<branch>"` — the capability list and the trailing
newline are never emitted, and `strlen` would stop there anyway.  The body
is the pkt-line (length counting itself), the `"0000"` flush appended by
`strcat`, then the raw `create_packfile` output. -/
def git_push_payload (H : Bytes → Bytes) (infl : Bytes → Option (Bytes × Nat))
    (defl : Bytes → Bytes) (fs : List (Bytes × Bytes))
    (dirs : List (Bytes × List Bytes)) (resp branch commitHex : Bytes) : Bytes :=
  let old := oldShaOf resp branch
  let updLine := old ++ [32] ++ commitHex ++ [32] ++ refsHeadsWireB ++ branch
  let pkt := hex4 (updLine.length + 4) ++ updLine ++ [48, 48, 48, 48]
  pkt ++ create_packfile H infl defl fs dirs

/-- Local filesystem writes of `git_push` (git.c:632-707): there are none —
the push path only reads (`read_ref_head`, the loose objects read by
`create_packfile`) and performs network I/O; no `fopen(...,"w")` occurs. -/
def git_push_local_writes : List (Bytes × Bytes) := []

/-- Local filesystem writes of `git_pull` (git.c:710-786).  `resp1` is the
info/refs response body (`none` when the GET failed), `resp2` the
upload-pack response (`none` when the POST failed).  On the success path
the pack bytes from the first `"PACK"` occurrence are written to
`received.pack` and then unpacked into the object store. -/
def git_pull_writes (infl : Bytes → Option (Bytes × Nat)) (junk : Nat → Bytes)
    (resp1 resp2 : Option Bytes) (branch : Bytes) : List (Bytes × Bytes) :=
  match resp1 with
  | none => []
  | some r1 =>
    match find_branch_sha1_in_info_refs r1 branch with
    | none => []
    | some _ =>
      match resp2 with
      | none => []
      | some r2 =>
        match strstrGo (r2.length + 1) r2 packMagicB 0 with
        | none => []
        | some off =>
          let pk := r2.drop off
          (recvPackB, pk) :: (unpack_packfile infl junk pk).2

/-- Interface contract of the zlib pair (spec section 1: the compression
primitive is an external collaborator "specified only by the interface"):
a deflate stream is self-delimiting, so inflating it with arbitrary
trailing bytes yields the original input and consumes exactly the stream's
length. -/
def CodecOK (defl : Bytes → Bytes) (infl : Bytes → Option (Bytes × Nat)) : Prop :=
  ∀ x s, infl (defl x ++ s) = some (x, (defl x).length)

/-- Interface contract of the hash primitive: a 160-bit (20-byte) digest. -/
def HashOK (H : Bytes → Bytes) : Prop := ∀ x, (H x).length = 20

/-- The wire bytes of one non-delta pack entry of type `e.1` carrying
inflated data `e.2` (spec section 6). -/
def entryBytes (defl : Bytes → Bytes) (e : Nat × Bytes) : Bytes :=
  write_pack_obj_hdr e.1 e.2.length ++ defl e.2

def joinEntries (defl : Bytes → Bytes) (es : List (Nat × Bytes)) : Bytes :=
  (es.map (entryBytes defl)).flatten

/-- Everything of a packfile before the trailing digest: magic, version 2,
big-endian entry count, entries (spec section 6). -/
def packBody (defl : Bytes → Bytes) (es : List (Nat × Bytes)) : Bytes :=
  packMagicB ++ [0, 0, 0, 2] ++ be32 es.length ++ joinEntries defl es

def packOfEntries (defl : Bytes → Bytes) (es : List (Nat × Bytes)) (trailer : Bytes) : Bytes :=
  packBody defl es ++ trailer

/-- The store writes decoding the entries `es` performs, starting at loop
index `i` (each entry is stored raw under the junk id of its iteration). -/
def expWrites (junk : Nat → Bytes) : Nat → List (Nat × Bytes) → List (Bytes × Bytes)
  | _, [] => []
  | i, e :: es => (objPath (junk i), e.2) :: expWrites junk (i + 1) es

-- Concrete conforming external collaborators, used to evaluate the model
-- on closed inputs.

/-- A concrete self-delimiting compressor: unary length, a 0 marker, then
the raw bytes.  (Stands in for zlib; `codecC_ok` proves the `CodecOK`
interface.) -/
def deflateC (x : Bytes) : Bytes := List.replicate x.length 1 ++ 0 :: x

def inflateC (bs : Bytes) : Option (Bytes × Nat) :=
  let n := (bs.takeWhile (fun c => c == 1)).length
  if n + 1 + n ≤ bs.length ∧ bs.getD n 0 = 0 then
    some ((bs.drop (n + 1)).take n, n + 1 + n)
  else none

/-- A concrete 20-byte digest function (stands in for SHA1). -/
def hashC (x : Bytes) : Bytes :=
  (List.range 20).map (fun i => (x.foldl (fun a b => (a * 31 + b + 7) % 256) i) % 256)

/-- A concrete assignment of contents to the uninitialized `sha1` buffer of
`unpack_packfile`'s loop iterations. -/
def junkC (i : Nat) : Bytes := List.replicate 20 ((3 * i + 5) % 256)

theorem hashC_hashOK : HashOK hashC := fun x => by simp [hashC, HashOK]

theorem takeWhile_ones (n : Nat) (t : Bytes) :
    (List.replicate n 1 ++ 0 :: t).takeWhile (fun c => c == 1) = List.replicate n 1 := by
  induction n with
  | zero => simp [List.takeWhile]
  | succ n ih => simp [List.replicate, List.takeWhile, ih]

theorem getD_ones (n : Nat) (t : Bytes) (d : Nat) :
    (List.replicate n 1 ++ 0 :: t).getD n d = 0 := by
  induction n with
  | zero => simp
  | succ n ih => simpa [List.replicate] using ih

theorem drop_ones (n : Nat) (t : Bytes) :
    (List.replicate n 1 ++ 0 :: t).drop (n + 1) = t := by
  induction n with
  | zero => simp
  | succ n ih => simpa [List.replicate] using ih

theorem codecC_ok : CodecOK deflateC inflateC := by
  intro x s
  have hassoc : deflateC x ++ s = List.replicate x.length 1 ++ 0 :: (x ++ s) := by
    simp [deflateC]
  rw [hassoc]
  have hn := takeWhile_ones x.length (x ++ s)
  have hg := getD_ones x.length (x ++ s) 0
  have hd := drop_ones x.length (x ++ s)
  simp only [inflateC, hn, List.length_replicate, hg, hd]
  have hlen : x.length + 1 + x.length ≤ (List.replicate x.length 1 ++ 0 :: (x ++ s)).length := by
    simp; omega
  rw [if_pos ⟨hlen, trivial⟩]
  have htk : (x ++ s).take x.length = x := by
    simp
  rw [htk]
  simp [deflateC]
  omega


theorem readSizeLoop_stop (bs : Bytes) (cprev shift acc : Nat) (h : cprev % 256 < 128) :
    readSizeLoop bs cprev shift acc = (acc, bs) := by
  rw [readSizeLoop.eq_def]
  simp [h]

theorem readSizeLoop_cons (b : Nat) (bs : Bytes) (cprev shift acc : Nat)
    (h : ¬ cprev % 256 < 128) :
    readSizeLoop (b :: bs) cprev shift acc
      = readSizeLoop bs (b % 256) (shift + 7) (acc + b % 256 % 128 * 2 ^ shift) := by
  rw [readSizeLoop.eq_def]
  simp [h]

theorem packHdrRestAux_zero (fuel : Nat) : packHdrRestAux fuel 0 = [] := by
  cases fuel <;> simp [packHdrRestAux]

theorem readSize_of_hdrRest :
    ∀ fuel m, m ≤ fuel → ∀ shift acc r cprev, (cprev % 256 < 128 ↔ m = 0) →
    readSizeLoop (packHdrRestAux fuel m ++ r) cprev shift acc = (acc + m * 2 ^ shift, r) := by
  intro fuel
  induction fuel with
  | zero =>
    intro m hm shift acc r cprev hiff
    have hm0 : m = 0 := Nat.le_zero.mp hm
    subst hm0
    rw [packHdrRestAux_zero, List.nil_append, readSizeLoop_stop _ _ _ _ (hiff.mpr rfl)]
    simp
  | succ fuel ih =>
    intro m hm shift acc r cprev hiff
    by_cases h0 : m = 0
    · subst h0
      rw [packHdrRestAux_zero, List.nil_append, readSizeLoop_stop _ _ _ _ (hiff.mpr rfl)]
      simp
    · have hb : ¬ cprev % 256 < 128 := fun hlt => h0 (hiff.mp hlt)
      have hmlt : m % 128 < 128 := Nat.mod_lt _ (by norm_num)
      have hrec : m / 128 ≤ fuel := by
        have := Nat.div_lt_self (Nat.pos_of_ne_zero h0) (show (1:Nat) < 128 by norm_num)
        omega
      have harith : ∀ a : Nat, a + m % 128 * 2 ^ shift + m / 128 * 2 ^ (shift + 7)
          = a + m * 2 ^ shift := by
        intro a
        have hm128 : m % 128 + m / 128 * 128 = m := Nat.mod_add_div' m 128
        calc a + m % 128 * 2 ^ shift + m / 128 * 2 ^ (shift + 7)
            = a + (m % 128 + m / 128 * 128) * 2 ^ shift := by rw [pow_add]; ring
          _ = a + m * 2 ^ shift := by rw [hm128]
      by_cases hd : m / 128 = 0
      · have hhdr : packHdrRestAux (fuel + 1) m ++ r
            = (m % 128) :: (packHdrRestAux fuel (m / 128) ++ r) := by
          simp [packHdrRestAux, h0, hd]
        have hb256 : m % 128 % 256 = m % 128 := Nat.mod_eq_of_lt (by omega)
        rw [hhdr, readSizeLoop_cons _ _ _ _ _ hb,
          ih (m / 128) hrec (shift + 7) _ r (m % 128 % 256) (by rw [hb256]; omega)]
        rw [hb256]
        have : m % 128 % 128 = m % 128 := Nat.mod_eq_of_lt hmlt
        rw [this, harith]
      · have hhdr : packHdrRestAux (fuel + 1) m ++ r
            = (m % 128 + 128) :: (packHdrRestAux fuel (m / 128) ++ r) := by
          simp [packHdrRestAux, h0, hd]
        have hb256 : (m % 128 + 128) % 256 = m % 128 + 128 := Nat.mod_eq_of_lt (by omega)
        rw [hhdr, readSizeLoop_cons _ _ _ _ _ hb,
          ih (m / 128) hrec (shift + 7) _ r ((m % 128 + 128) % 256) (by rw [hb256]; omega)]
        rw [hb256]
        have : (m % 128 + 128) % 128 = m % 128 := by omega
        rw [this, harith]

theorem readEntryHead_enc (t s : Nat) (ht : t ≤ 7) (r : Bytes) :
    readEntryHead (write_pack_obj_hdr t s ++ r) = (t, s, r) := by
  have h16 : s % 16 < 16 := Nat.mod_lt s (by norm_num)
  have hsd : s % 16 + s / 16 * 16 = s := Nat.mod_add_div' s 16
  by_cases hz : s / 16 = 0
  · have hstep : write_pack_obj_hdr t s ++ r
        = (t * 16 + s % 16) :: (packHdrRestAux (s / 16) (s / 16) ++ r) := by
      simp [write_pack_obj_hdr, packHdrRest, hz]
    have hlt : t * 16 + s % 16 < 256 := by omega
    have hm : (t * 16 + s % 16) % 256 = t * 16 + s % 16 := Nat.mod_eq_of_lt hlt
    rw [hstep, readEntryHead]
    rw [readSize_of_hdrRest (s / 16) (s / 16) le_rfl 4 _ r _ (by rw [hm]; omega)]
    rw [hm]
    have h1 : (t * 16 + s % 16) / 16 % 8 = t := by omega
    have h2 : (t * 16 + s % 16) % 16 = s % 16 := by omega
    rw [h1, h2]
    have : s % 16 + s / 16 * 2 ^ 4 = s := by
      simpa using hsd
    rw [this]
  · have hstep : write_pack_obj_hdr t s ++ r
        = (t * 16 + s % 16 + 128) :: (packHdrRestAux (s / 16) (s / 16) ++ r) := by
      simp [write_pack_obj_hdr, packHdrRest, hz]
    have hlt : t * 16 + s % 16 + 128 < 256 := by omega
    have hm : (t * 16 + s % 16 + 128) % 256 = t * 16 + s % 16 + 128 := Nat.mod_eq_of_lt hlt
    rw [hstep, readEntryHead]
    rw [readSize_of_hdrRest (s / 16) (s / 16) le_rfl 4 _ r _ (by rw [hm]; omega)]
    rw [hm]
    have h1 : (t * 16 + s % 16 + 128) / 16 % 8 = t := by omega
    have h2 : (t * 16 + s % 16 + 128) % 16 = s % 16 := by omega
    rw [h1, h2]
    have : s % 16 + s / 16 * 2 ^ 4 = s := by
      simpa using hsd
    rw [this]

theorem unpackLoop_cons (infl : Bytes → Option (Bytes × Nat)) (junk : Nat → Bytes)
    (defl : Bytes → Bytes) (hc : CodecOK defl infl) (n i pos : Nat) (t : Nat)
    (ht1 : 1 ≤ t) (ht4 : t ≤ 4) (data tail : Bytes) (objs : List UnpackedObj)
    (ws : List (Bytes × Bytes)) :
    unpackLoop infl junk (n + 1) i pos (entryBytes defl (t, data) ++ tail) objs ws
      = unpackLoop infl junk n (i + 1) (pos + (entryBytes defl (t, data)).length) tail
          (objs ++ [⟨(typeNameOf t).take 7, junk i, data, pos⟩])
          (ws ++ [write_git_object data (junk i)]) := by
  have hrw : entryBytes defl (t, data) ++ tail
      = write_pack_obj_hdr t data.length ++ (defl data ++ tail) := by
    simp [entryBytes]
  rw [hrw]
  rw [unpackLoop.eq_def]
  simp only [readEntryHead_enc t data.length (by omega) (defl data ++ tail)]
  rw [if_pos ⟨ht1, ht4⟩]
  rw [hc data tail]
  simp only []
  rw [if_neg (by omega : ¬ data.length + 65536 < data.length)]
  have hdrop : (defl data ++ tail).drop (defl data).length = tail := List.drop_left _ _
  rw [hdrop]
  have hlen : pos + ((write_pack_obj_hdr t data.length ++ (defl data ++ tail)).length
        - (defl data ++ tail).length) + (defl data).length
      = pos + (entryBytes defl (t, data)).length := by
    simp [entryBytes, List.length_append]
    omega
  rw [hlen]

theorem unpackLoop_entries (infl : Bytes → Option (Bytes × Nat)) (junk : Nat → Bytes)
    (defl : Bytes → Bytes) (hc : CodecOK defl infl) :
    ∀ (es : List (Nat × Bytes)) (i pos : Nat) (objs : List UnpackedObj)
      (ws : List (Bytes × Bytes)) (tail : Bytes),
      (∀ e ∈ es, 1 ≤ e.1 ∧ e.1 ≤ 4) →
      unpackLoop infl junk es.length i pos (joinEntries defl es ++ tail) objs ws
        = (0, ws ++ expWrites junk i es) := by
  intro es
  induction es with
  | nil =>
    intro i pos objs ws tail _
    simp [joinEntries, unpackLoop, expWrites]
  | cons e es ih =>
    intro i pos objs ws tail h
    obtain ⟨t, data⟩ := e
    have he := h (t, data) (List.mem_cons_self _ _)
    have hj : joinEntries defl ((t, data) :: es) ++ tail
        = entryBytes defl (t, data) ++ (joinEntries defl es ++ tail) := by
      simp [joinEntries]
    rw [List.length_cons, hj,
      unpackLoop_cons infl junk defl hc es.length i pos t he.1 he.2 data
        (joinEntries defl es ++ tail) objs ws,
      ih (i + 1) (pos + (entryBytes defl (t, data)).length) _ _ tail
        (fun e hm => h e (List.mem_cons_of_mem _ hm))]
    simp [expWrites, write_git_object]

/-- What decoding a well-formed whole-object pack writes: return code 0 and
one raw write per entry under the junk ids; the result does not depend on
the trailer bytes at all (the trailing digest is never read). -/
theorem unpack_packfile_entries (infl : Bytes → Option (Bytes × Nat)) (junk : Nat → Bytes)
    (defl : Bytes → Bytes) (es : List (Nat × Bytes)) (trailer : Bytes)
    (hc : CodecOK defl infl) (hty : ∀ e ∈ es, 1 ≤ e.1 ∧ e.1 ≤ 4)
    (hcnt : es.length < 2 ^ 32) :
    unpack_packfile infl junk (packOfEntries defl es trailer)
      = (0, expWrites junk 0 es) := by
  have hmagic : (packOfEntries defl es trailer).take 4 = packMagicB := by
    simp [packOfEntries, packBody, packMagicB, strBytes, List.take]
  rw [unpack_packfile, if_pos hmagic]
  have hbe : be32 es.length
      = [es.length / 2 ^ 24 % 256, es.length / 2 ^ 16 % 256,
         es.length / 2 ^ 8 % 256, es.length % 256] := rfl
  have hcount : be32At (packOfEntries defl es trailer) 8 = es.length := by
    show be32At (packMagicB ++ [0, 0, 0, 2] ++ be32 es.length ++ joinEntries defl es
      ++ trailer) 8 = es.length
    rw [hbe]
    simp [packMagicB, strBytes, be32At, List.getD]
    omega
  have hdrop : (packOfEntries defl es trailer).drop 12 = joinEntries defl es ++ trailer := by
    show (packMagicB ++ [0, 0, 0, 2] ++ be32 es.length ++ joinEntries defl es
      ++ trailer).drop 12 = joinEntries defl es ++ trailer
    rw [hbe]
    simp [packMagicB, strBytes, List.drop]
  rw [hcount, hdrop]
  exact unpackLoop_entries infl junk defl hc es 0 12 [] [] trailer hty

theorem unpackLoop_writes (infl : Bytes → Option (Bytes × Nat)) (junk : Nat → Bytes) :
    ∀ (n i pos : Nat) (rest : Bytes) (objs : List UnpackedObj)
      (ws : List (Bytes × Bytes)) (w : Bytes × Bytes),
      w ∈ (unpackLoop infl junk n i pos rest objs ws).2 →
      w ∈ ws ∨ ∃ s d, w = (objPath s, d) := by
  intro n
  induction n with
  | zero =>
    intro i pos rest objs ws w hw
    exact .inl (by simpa [unpackLoop] using hw)
  | succ n ih =>
    intro i pos rest objs ws w hw
    rw [unpackLoop.eq_def] at hw
    simp only at hw
    split at hw
    · split at hw
      · exact .inl (by simpa using hw)
      · split at hw
        · exact .inl (by simpa using hw)
        · rcases ih _ _ _ _ _ w hw with h | h
          · rcases List.mem_append.mp h with h2 | h2
            · exact .inl h2
            · exact .inr ⟨_, _, by simpa [write_git_object] using h2⟩
          · exact .inr h
    · split at hw
      · split at hw
        · exact .inl (by simpa using hw)
        · split at hw
          · exact .inl (by simpa using hw)
          · split at hw
            · exact .inl (by simpa using hw)
            · split at hw
              · exact .inl (by simpa using hw)
              · rcases ih _ _ _ _ _ w hw with h | h
                · rcases List.mem_append.mp h with h2 | h2
                  · exact .inl h2
                  · exact .inr ⟨_, _, by simpa [write_git_object] using h2⟩
                · exact .inr h
      · split at hw
        · split at hw
          · exact .inl (by simpa using hw)
          · split at hw
            · exact .inl (by simpa using hw)
            · split at hw
              · exact .inl (by simpa using hw)
              · split at hw
                · exact .inl (by simpa using hw)
                · rcases ih _ _ _ _ _ w hw with h | h
                  · rcases List.mem_append.mp h with h2 | h2
                    · exact .inl h2
                    · exact .inr ⟨_, _, by simpa [write_git_object] using h2⟩
                  · exact .inr h
        · exact .inl (by simpa using hw)

theorem packEntriesGo_count_le (infl : Bytes → Option (Bytes × Nat)) (defl : Bytes → Bytes)
    (fs : List (Bytes × Bytes)) :
    ∀ names : List Bytes, (packEntriesGo infl defl fs names).2 ≤ names.length := by
  intro names
  induction names with
  | nil => simp [packEntriesGo]
  | cons name rest ih =>
    rw [packEntriesGo.eq_def]
    rcases hf : getFile fs (pathOfHex name) with _ | file
    · simp only [hf]
      simpa using Nat.le_succ_of_le ih
    · simp only [hf]
      rcases hr : read_loose_object infl file with _ | td
      · simp only [hr]
        simpa using Nat.le_succ_of_le ih
      · obtain ⟨ty, data⟩ := td
        simp only [hr]
        simpa using ih

/-- A path is a ref file or HEAD (the files `update_refs` writes). -/
def isRefWrite (p : Bytes) : Prop := (∃ b, p = dotGitRefsHeadsB ++ b) ∨ p = headPathB

theorem dotGitObjectsB_eq :
    dotGitObjectsB = [46, 103, 105, 116, 47, 111, 98, 106, 101, 99, 116, 115, 47] := by decide

theorem dotGitRefsHeadsB_eq :
    dotGitRefsHeadsB
      = [46, 103, 105, 116, 47, 114, 101, 102, 115, 47, 104, 101, 97, 100, 115, 47] := by
  decide

theorem headPathB_eq : headPathB = [46, 103, 105, 116, 47, 72, 69, 65, 68] := by decide

theorem recvPackB_eq :
    recvPackB = [114, 101, 99, 101, 105, 118, 101, 100, 46, 112, 97, 99, 107] := by decide

theorem objPath_not_ref (s : Bytes) : ¬ isRefWrite (objPath s) := by
  rintro (⟨b, hb⟩ | hb)
  · rw [objPath, pathOfHex, dotGitObjectsB_eq, dotGitRefsHeadsB_eq] at hb
    simp at hb
  · rw [objPath, pathOfHex, dotGitObjectsB_eq, headPathB_eq] at hb
    simp at hb

theorem recvPack_not_ref : ¬ isRefWrite recvPackB := by
  rintro (⟨b, hb⟩ | hb)
  · rw [recvPackB_eq, dotGitRefsHeadsB_eq] at hb
    simp at hb
  · rw [recvPackB_eq, headPathB_eq] at hb
    simp at hb

-- Concrete closed scenario inputs.

/-- The bytes of `"hello\n"` (the spec's end-to-end scenario blob). -/
def helloB : Bytes := [104, 101, 108, 108, 111, 10]

def canonHello : Bytes := canonicalObj blobB helloB

def shaHello : Bytes := hashC canonHello

/-- A store holding the single blob `"hello\n"` as a loose object in the
spec's format `deflate("blob 6\0hello\n")` at its digest-derived path. -/
def fsOne : List (Bytes × Bytes) := [(objPath shaHello, deflateC canonHello)]

def dirsOne : List (Bytes × List Bytes) :=
  [((sha1_to_hex shaHello).take 2, [(sha1_to_hex shaHello).drop 2])]

def packOne : Bytes := create_packfile hashC inflateC deflateC fsOne dirsOne

/-- A one-blob packfile with an arbitrary (unchecked) 20-byte trailer. -/
def packThree : Bytes := packOfEntries deflateC [(3, helloB)] (List.replicate 20 0)

/-- C1.  The encode/decode round trip does NOT reproduce the store: for the
store holding the single blob `"hello\n"`, `create_packfile` does emit the
claimed header `"PACK\x00\x00\x00\x02\x00\x00\x00\x01"`, but
`unpack_packfile` stores the blob's raw content (uncompressed, without the
canonical header) under the path derived from the uninitialized `sha1`
buffer (`junkC 0`), not under the blob's id `shaHello`: the decoded store
`[(objPath (junkC 0), helloB)]` differs from the original store `fsOne`
both in id and in file content.  (Evaluates the code of `create_packfile`
and `unpack_packfile` at the failing input.) -/
theorem claim_C1_roundtrip :
    packOne.take 12 = [80, 65, 67, 75, 0, 0, 0, 2, 0, 0, 0, 1] ∧
    unpack_packfile inflateC junkC packOne = (0, [(objPath (junkC 0), helloB)]) ∧
    objPath (junkC 0) ≠ objPath shaHello ∧
    helloB ≠ deflateC canonHello ∧
    [(objPath (junkC 0), helloB)] ≠ fsOne := by
  exact ⟨by decide, by decide, by decide, by decide, by decide⟩

/-- C3.  The pack decoder does not store a received object under the
recomputed digest of its canonical encoding: decoding the one-blob pack
`packThree` writes the object at the path derived from the uninitialized
`sha1` buffer (`junkC 0`), which differs from the digest-derived path for
every one of the four object kinds — the id is never recomputed (and never
taken from the stream either); it is uninitialized memory. -/
theorem claim_C3_stored_id :
    unpack_packfile inflateC junkC packThree = (0, [(objPath (junkC 0), helloB)]) ∧
    objPath (junkC 0) ≠ objPath (hashC (canonicalObj commitB helloB)) ∧
    objPath (junkC 0) ≠ objPath (hashC (canonicalObj treeB helloB)) ∧
    objPath (junkC 0) ≠ objPath (hashC (canonicalObj blobB helloB)) ∧
    objPath (junkC 0) ≠ objPath (hashC (canonicalObj tagB helloB)) := by
  exact ⟨by decide, by decide, by decide, by decide, by decide⟩

/-- C4.  `put` (= `create_blob` via `write_git_object`) computes the id
over the canonical encoding and derives the `objects/<2-hex>/<38-hex>`
path from it, but it persists the canonical encoding UNCOMPRESSED — the
stored file content is `"<kind> <decimal-length>\0<raw content>"` itself,
not its deflate stream; consequently the repository's own reader
`read_loose_object` (which inflates the file) cannot read the file back. -/
theorem claim_C4_put_compress :
    (∀ (H : Bytes → Bytes) (content : Bytes),
      create_blob H content
        = ((objPath (H (canonicalObj blobB content)), canonicalObj blobB content),
            H (canonicalObj blobB content))) ∧
    canonicalObj blobB helloB ≠ deflateC (canonicalObj blobB helloB) ∧
    read_loose_object inflateC (canonicalObj blobB helloB) = none := by
  exact ⟨fun H content => rfl, by decide, by decide⟩

/-- The formalization of claim C2 as stated: for every packfile whose
20-byte trailer differs from the digest of the preceding bytes, decode
fails (nonzero exit code) and performs no store writes. -/
def trailerClaim : Prop :=
  ∀ (H defl : Bytes → Bytes) (infl : Bytes → Option (Bytes × Nat)) (junk : Nat → Bytes)
    (es : List (Nat × Bytes)) (trailer : Bytes),
    HashOK H → CodecOK defl infl → (∀ e ∈ es, 1 ≤ e.1 ∧ e.1 ≤ 4) →
    es.length < 2 ^ 32 → es ≠ [] → trailer ≠ H (packBody defl es) →
    (unpack_packfile infl junk (packOfEntries defl es trailer)).1 ≠ 0 ∧
    (unpack_packfile infl junk (packOfEntries defl es trailer)).2 = []

/-- C2 (counterexample).  The claim is false on the code: the one-blob pack
with the all-zero trailer (which is not the digest of the body) decodes
with exit code 0 and writes the object to the store. -/
theorem claim_C2_counterexample : ¬ trailerClaim := by
  intro h
  have hinst := h hashC deflateC inflateC junkC [(3, helloB)] (List.replicate 20 0)
    hashC_hashOK codecC_ok (by decide) (by decide) (by decide) (by decide)
  exact hinst.1 (by decide)

/-- C2 (amended).  `unpack_packfile` never recomputes or compares the
trailing 20-byte digest: decoding a well-formed whole-object packfile
succeeds and performs one store write per entry, and replacing the trailer
by ANY other bytes leaves both the exit code and the store writes
identical (the writes having already been performed entry by entry). -/
theorem claim_C2_trailer_ignored (defl : Bytes → Bytes)
    (infl : Bytes → Option (Bytes × Nat)) (junk : Nat → Bytes)
    (es : List (Nat × Bytes)) (trailer trailer2 : Bytes)
    (hc : CodecOK defl infl) (hty : ∀ e ∈ es, 1 ≤ e.1 ∧ e.1 ≤ 4)
    (hcnt : es.length < 2 ^ 32) :
    unpack_packfile infl junk (packOfEntries defl es trailer) = (0, expWrites junk 0 es) ∧
    unpack_packfile infl junk (packOfEntries defl es trailer)
      = unpack_packfile infl junk (packOfEntries defl es trailer2) := by
  refine ⟨unpack_packfile_entries infl junk defl es trailer hc hty hcnt, ?_⟩
  rw [unpack_packfile_entries infl junk defl es trailer hc hty hcnt,
    unpack_packfile_entries infl junk defl es trailer2 hc hty hcnt]

/-- C2 (witness): the amended theorem applied to the one-blob pack, with
the correct digest as one trailer and the all-zero trailer as the other. -/
theorem claim_C2_witness :
    unpack_packfile inflateC junkC
        (packOfEntries deflateC [(3, helloB)] (hashC (packBody deflateC [(3, helloB)])))
      = (0, expWrites junkC 0 [(3, helloB)]) ∧
    unpack_packfile inflateC junkC
        (packOfEntries deflateC [(3, helloB)] (hashC (packBody deflateC [(3, helloB)])))
      = unpack_packfile inflateC junkC
          (packOfEntries deflateC [(3, helloB)] (List.replicate 20 0)) :=
  claim_C2_trailer_ignored deflateC inflateC junkC [(3, helloB)]
    (hashC (packBody deflateC [(3, helloB)])) (List.replicate 20 0)
    codecC_ok (by decide) (by decide)

def baseDataB : Bytes := [65, 65, 65, 65]

def canonBase : Bytes := canonicalObj blobB baseDataB

def shaBase : Bytes := hashC canonBase

/-- Delta stream: base size 4, target size 2, one insert of `"XY"`. -/
def deltaB : Bytes := [4, 2, 2, 88, 89]

def entryBaseB : Bytes := write_pack_obj_hdr 3 4 ++ deflateC baseDataB

/-- REF_DELTA entry referencing the base blob by its true digest. -/
def entryRefB : Bytes := write_pack_obj_hdr 7 5 ++ shaBase ++ deflateC deltaB

/-- OFS_DELTA entry whose (unbiased, single-byte) offset 10 points back to
the base entry at pack offset 12 (this entry starts at offset 22). -/
def entryOfsB : Bytes := write_pack_obj_hdr 6 5 ++ [10] ++ deflateC deltaB

def packRefOrdered : Bytes :=
  [80, 65, 67, 75, 0, 0, 0, 2, 0, 0, 0, 2] ++ entryBaseB ++ entryRefB ++ List.replicate 20 0

def packRefDangling : Bytes :=
  [80, 65, 67, 75, 0, 0, 0, 2, 0, 0, 0, 1] ++ entryRefB ++ List.replicate 20 0

def packOfsOrdered : Bytes :=
  [80, 65, 67, 75, 0, 0, 0, 2, 0, 0, 0, 2] ++ entryBaseB ++ entryOfsB ++ List.replicate 20 0

/-- C5.  A REF_DELTA whose base digest matches nothing resolved in the pass
does abort with the dangling-base exit code 5 (conjunct 3), and an
OFS_DELTA ordered after its base succeeds (conjunct 4); BUT re-ordering a
REF_DELTA after its base does NOT make decode succeed, contrary to the
claim: the Resolution Table records the uninitialized buffer `junkC 0`
(conjunct 2: it differs from the base's true digest) instead of the
resolved entry's digest, so the correctly-ordered REF_DELTA pack still
fails with exit code 5 after having written the base (conjunct 1) — and
the failure also leaves that earlier write in the store. -/
theorem claim_C5_delta_base :
    unpack_packfile inflateC junkC packRefOrdered
        = (5, [(objPath (junkC 0), baseDataB)]) ∧
    junkC 0 ≠ shaBase ∧
    unpack_packfile inflateC junkC packRefDangling = (5, []) ∧
    unpack_packfile inflateC junkC packOfsOrdered
        = (0, [(objPath (junkC 0), baseDataB), (objPath (junkC 1), [88, 89])]) := by
  exact ⟨by decide, by decide, by decide, by decide⟩

def branchMasterB : Bytes := [109, 97, 115, 116, 101, 114]

def commitHex40 : Bytes := List.replicate 40 97

/-- The pkt-line payload `git_push` actually emits: the C format string of
git.c:665 contains an embedded `\x00` byte, so the string (and `strlen`)
ends right after `"refs/heads/<branch>"` — no NUL separator, no
capability list, no trailing newline. -/
def truncLine : Bytes :=
  List.replicate 40 48 ++ [32] ++ commitHex40 ++ [32] ++ refsHeadsWireB ++ branchMasterB

def packEmpty : Bytes := create_packfile hashC inflateC deflateC [] []

theorem hex4_length (n : Nat) : (hex4 n).length = 4 := rfl

set_option maxRecDepth 4000 in
/-- C6.  The push body is the pkt-line (4-hex length counting itself), the
`"0000"` flush, then the raw packfile with no further framing — but the
pkt-line payload is the TRUNCATED `"<old> <new> refs/heads/<branch>"`
(conjunct 1), never the claimed
`"<old> <new> refs/heads/<branch>\0report-status side-band-64k agent=…\n"`:
for every candidate capability byte string `caps`, the body differs from
the claimed form (conjunct 2; the lengths already disagree). -/
theorem claim_C6_push_body :
    git_push_payload hashC inflateC deflateC [] [] [] branchMasterB commitHex40
        = hex4 (truncLine.length + 4) ++ truncLine ++ [48, 48, 48, 48] ++ packEmpty ∧
    ∀ caps : Bytes,
      git_push_payload hashC inflateC deflateC [] [] [] branchMasterB commitHex40
        ≠ hex4 ((truncLine ++ 0 :: (caps ++ [10])).length + 4)
            ++ (truncLine ++ 0 :: (caps ++ [10])) ++ [48, 48, 48, 48] ++ packEmpty := by
  have h1 : git_push_payload hashC inflateC deflateC [] [] [] branchMasterB commitHex40
      = hex4 (truncLine.length + 4) ++ truncLine ++ [48, 48, 48, 48] ++ packEmpty := by
    decide
  refine ⟨h1, ?_⟩
  intro caps h
  rw [h1] at h
  have hl := congrArg List.length h
  have e1 : truncLine.length = 99 := by decide
  have e2 : packEmpty.length = 32 := by decide
  simp only [List.length_append, List.length_cons, hex4_length, e1, e2] at hl
  omega

deriving instance DecidableEq for Except

/-- C7.  `apply_delta` parses the two leading varints and (1) whenever it
succeeds, the produced byte sequence has length exactly the declared
target length; (2) whenever the opcode run completes but the produced
length differs from the declared target length, it fails with
`TargetSizeMismatch`. -/
theorem claim_C7_apply_target (base delta : Bytes) :
    (∀ out, apply_delta base delta = .ok out →
      ∃ bs r1 ts r2, get_varint delta = some (bs, r1) ∧ get_varint r1 = some (ts, r2) ∧
        out.length = ts) ∧
    (∀ bs r1 ts r2 res, get_varint delta = some (bs, r1) → get_varint r1 = some (ts, r2) →
      bs = base.length → runOps r2.length base r2 [] = .ok res → res.length ≠ ts →
      apply_delta base delta = .error .targetSizeMismatch) := by
  constructor
  · intro out hok
    unfold apply_delta at hok
    rcases h1 : get_varint delta with _ | ⟨bs, r1⟩
    · rw [h1] at hok
      simp at hok
    · rw [h1] at hok
      simp only at hok
      by_cases hbs : bs ≠ base.length
      · rw [if_pos hbs] at hok
        simp at hok
      · rw [if_neg hbs] at hok
        rcases h2 : get_varint r1 with _ | ⟨ts, r2⟩
        · rw [h2] at hok
          simp at hok
        · rw [h2] at hok
          simp only at hok
          rcases h3 : runOps r2.length base r2 [] with e | res
          · rw [h3] at hok
            simp at hok
          · rw [h3] at hok
            simp only at hok
            by_cases hlen : res.length = ts
            · rw [if_pos hlen] at hok
              have hres : res = out := by
                simpa using hok
              exact ⟨bs, r1, ts, r2, rfl, h2, by rw [← hres]; exact hlen⟩
            · rw [if_neg hlen] at hok
              simp at hok
  · intro bs r1 ts r2 res h1 h2 hbs h3 hne
    unfold apply_delta
    rw [h1]
    simp only
    rw [if_neg (by omega : ¬ bs ≠ base.length), h2]
    simp only
    rw [h3]
    simp only
    rw [if_neg hne]

/-- C7 (witness): the theorem applied to base `"AAAA"` and the delta
stream `[4, 2, insert "XY"]`, whose declared target size 2 is the length
of the produced `"XY"`. -/
theorem claim_C7_witness :
    ∃ bs r1 ts r2, get_varint deltaB = some (bs, r1) ∧ get_varint r1 = some (ts, r2) ∧
      ([88, 89] : Bytes).length = ts :=
  (claim_C7_apply_target baseDataB deltaB).1 [88, 89] (by decide)

def sha40B : Bytes := strBytes ("cafe0123456789abcdef0123456789abcdef1234")

def refsMainB : Bytes := strBytes ("refs/heads/main")

/-- The pkt-line body `"003e<40-hex-id> refs/heads/main\n0000"`. -/
def infoRefsBody : Bytes :=
  strBytes ("003e") ++ sha40B ++ [32] ++ refsMainB ++ [10] ++ strBytes ("0000")

/-- C8.  On the claimed body, ref discovery does NOT return the 40-hex
object id: `find_branch_sha1_in_info_refs` walks back to the start of the
line and scans 40 bytes of `[0-9a-f]` from there, so it returns the 4-hex
pkt-line length prefix `"003e"` followed by only the first 36 digits of
the id — the length prefix IS (wrongly) part of the returned id and the
id's last 4 digits are dropped. -/
theorem claim_C8_discover_refs :
    find_branch_sha1_in_info_refs infoRefsBody refsMainB
        = some (strBytes ("003e") ++ sha40B.take 36) ∧
    strBytes ("003e") ++ sha40B.take 36 ≠ sha40B := by
  exact ⟨by decide, by decide⟩

/-- 1025 distinct 38-byte file names inside one 2-byte subdirectory: a
store of 1025 loose objects. -/
def bigNames : List Bytes :=
  (List.range 1025).map (fun k => List.replicate 36 97 ++ [k / 256 % 256, k % 256])

def dirsBig : List (Bytes × List Bytes) := [([97, 97], bigNames)]

set_option maxRecDepth 100000 in
/-- C9.  `create_packfile` does not emit one entry per loose object: its
collection phase has a hard-coded 1024-name capacity (`sha1s[1024][41]`
with the `sha1cnt > 1023` break), so of the 1025 loose objects in
`dirsBig` only 1024 are collected, and the number of pack entries emitted
for any store contents is bounded by that 1024 — the 1025th object is
silently dropped. -/
theorem claim_C9_capacity :
    bigNames.length = 1025 ∧
    (collectSha1s dirsBig).length = 1024 ∧
    ∀ (infl : Bytes → Option (Bytes × Nat)) (defl : Bytes → Bytes)
      (fs : List (Bytes × Bytes)),
      (packEntriesGo infl defl fs (collectSha1s dirsBig)).2 ≤ 1024 := by
  refine ⟨by decide, by decide, fun infl defl fs => ?_⟩
  have h := packEntriesGo_count_le infl defl fs (collectSha1s dirsBig)
  have h2 : (collectSha1s dirsBig).length = 1024 := by decide
  omega

/-- C10.  (1) `git_push` writes no local files at all; (2) every local
write of `git_pull` — for any network responses and any branch — is either
`received.pack` or an object-store path, never a `.git/refs/heads/*` file
and never `.git/HEAD`; (3) `update_refs` is what writes exactly the branch
ref file and HEAD; and (4) `git_commit_tree` ends by invoking it (the only
call site). -/
theorem claim_C10_frame :
    git_push_local_writes = ([] : List (Bytes × Bytes)) ∧
    (∀ (infl : Bytes → Option (Bytes × Nat)) (junk : Nat → Bytes)
        (r1 r2 : Option Bytes) (br : Bytes) (w : Bytes × Bytes),
      w ∈ git_pull_writes infl junk r1 r2 br → ¬ isRefWrite w.1) ∧
    (∀ sha br, (update_refs sha br).map Prod.fst = [dotGitRefsHeadsB ++ br, headPathB]) ∧
    (∀ (H : Bytes → Bytes) (root : List DirTree) (author timeb msg br : Bytes)
        (parent : Option Bytes), ∃ pre csha,
      git_commit_tree H root author timeb msg br parent = pre ++ update_refs csha br) := by
  refine ⟨rfl, ?_, fun sha br => by simp [update_refs], ?_⟩
  · intro infl junk r1 r2 br w hw
    unfold git_pull_writes at hw
    rcases r1 with _ | r1
    · simp at hw
    · simp only at hw
      rcases hfb : find_branch_sha1_in_info_refs r1 br with _ | sha
      · rw [hfb] at hw
        simp at hw
      · rw [hfb] at hw
        simp only at hw
        rcases r2 with _ | r2
        · simp at hw
        · simp only at hw
          rcases hss : strstrGo (r2.length + 1) r2 packMagicB 0 with _ | off
          · rw [hss] at hw
            simp at hw
          · rw [hss] at hw
            simp only at hw
            rcases List.mem_cons.mp hw with h | h
            · rw [h]
              exact recvPack_not_ref
            · unfold unpack_packfile at h
              by_cases hm : (r2.drop off).take 4 = packMagicB
              · rw [if_pos hm] at h
                rcases unpackLoop_writes infl junk _ _ _ _ _ _ w h with h2 | h2
                · simp at h2
                · obtain ⟨s, d, rfl⟩ := h2
                  exact objPath_not_ref s
              · rw [if_neg hm] at h
                simp at h
  · intro H root author timeb msg br parent
    exact ⟨(walkList H root).1 ++ [(create_tree_object H (walkList H root).2).1]
        ++ [(create_commit H (sha1_to_hex (create_tree_object H (walkList H root).2).2)
              parent author timeb msg).1],
      (create_commit H (sha1_to_hex (create_tree_object H (walkList H root).2).2)
        parent author timeb msg).2, rfl⟩

/-- C10 (witness): the frame theorem applied to a concrete pull whose
responses contain a discoverable branch and a packfile, at its
`received.pack` write. -/
theorem claim_C10_witness : ¬ isRefWrite recvPackB := by
  have h := claim_C10_frame.2.1 inflateC junkC (some infoRefsBody) (some packThree)
    refsMainB (recvPackB, packThree) (by decide)
  exact h
